import Mathlib

/-!
Verification of the portfolio accounting engine in `main.py`.

The Python source is shallowly embedded: Python `float` arithmetic is
modelled by exact rational arithmetic (`ℚ`), Python `int` by `ℤ`,
Python dictionaries by association lists (Python dict keys are unique,
insertion-ordered; `setdefault` becomes an insert-if-absent update),
and code paths that raise exceptions (`KeyError`, `ValueError`,
`AttributeError`, `IndexError`) return `none`.
-/

set_option synthInstance.maxSize 2048
set_option maxHeartbeats 1000000

/-- Constant `EPS = 1e-6` from the source. -/
def EPS : ℚ := 1 / 1000000

/-- Constant `BUY = 'BUY'` from the source. -/
def BUY : String := "BUY"

/-- Constant `SELL = 'SELL'` from the source. -/
def SELL : String := "SELL"

/-- Constant `RISK_FREE_RATE = 0.02` from the source. -/
def RISK_FREE_RATE : ℚ := 2 / 100

/-- A nested Python dict `{year: {month: {day: α}}}` with integer keys,
modelled as nested association lists. -/
abbrev DateIndexed (α : Type) : Type := List (ℤ × List (ℤ × List (ℤ × α)))

/-- Python dict assignment `d[k] = v`: replace the value at key `k`,
or append a fresh binding when the key is absent. -/
def setA {κ α : Type} [DecidableEq κ] (k : κ) (v : α) : List (κ × α) → List (κ × α)
  | [] => [(k, v)]
  | (k', v') :: rest => if k' = k then (k, v) :: rest else (k', v') :: setA k v rest

/-- Python `d.setdefault(k, v)` used for its side effect only: insert
`(k, v)` when the key is absent, keep the existing binding otherwise. -/
def setdefaultA {κ α : Type} [DecidableEq κ] (k : κ) (v : α) : List (κ × α) → List (κ × α)
  | [] => [(k, v)]
  | (k', v') :: rest => if k' = k then (k', v') :: rest else (k', v') :: setdefaultA k v rest

/-- Python `d.setdefault(k, dflt)` followed by a mutation `f` of the
returned sub-dictionary: update the value at `k` by `f`, starting from
`dflt` when the key is absent. -/
def updNested {κ α : Type} [DecidableEq κ] (k : κ) (f : α → α) (dflt : α) :
    List (κ × α) → List (κ × α)
  | [] => [(k, f dflt)]
  | (k', v') :: rest => if k' = k then (k', f v') :: rest else (k', v') :: updNested k f dflt rest

/-- Chained lookup `d[y][m][dd]` on a nested date dictionary; `none`
models a `KeyError` at any level. -/
def lookup3 {α : Type} (d : DateIndexed α) (y m dd : ℤ) : Option α :=
  (List.lookup y d).bind fun months => (List.lookup m months).bind fun days =>
    List.lookup dd days

/-- Class `Buy` from the source: ticker, price per share, quantity. -/
structure Buy where
  ticker : String
  price : ℚ
  qty : ℤ
deriving DecidableEq

/-- Property `Buy.cost`: `price * qty`. -/
def Buy.cost (b : Buy) : ℚ := b.price * b.qty

/-- Class `Sell` from the source: ticker, price per share, quantity,
realized profit and cost-basis consumed, fixed at construction time. -/
structure Sell where
  ticker : String
  price : ℚ
  qty : ℤ
  profit : ℚ
  cost : ℚ
deriving DecidableEq

/-- Class `TradeHistory` from the source: buys and sells in nested
dictionaries keyed year → month → day → ticker. -/
structure TradeHistory where
  buyHistory : List (ℤ × List (ℤ × List (ℤ × List (String × Buy))))
  sellHistory : List (ℤ × List (ℤ × List (ℤ × List (String × Sell))))
deriving DecidableEq

/-- `TradeHistory.__init__`: empty buy and sell histories. -/
def TradeHistory.empty : TradeHistory := ⟨[], []⟩

/-- `TradeHistory.add_buy`: chained `setdefault` calls ending in an
insert-or-ignore at the ticker key. -/
def TradeHistory.add_buy (th : TradeHistory) (year month day : ℤ) (buy : Buy) : TradeHistory :=
  { th with buyHistory := (updNested year
      (updNested month (updNested day (setdefaultA buy.ticker buy) []) []) [] th.buyHistory) }

/-- `TradeHistory.add_sell`: chained `setdefault` calls ending in an
insert-or-ignore at the ticker key. -/
def TradeHistory.add_sell (th : TradeHistory) (year month day : ℤ) (sell : Sell) : TradeHistory :=
  { th with sellHistory := (updNested year
      (updNested month (updNested day (setdefaultA sell.ticker sell) []) []) [] th.sellHistory) }

/-- `TradeHistory.get_buy`: nested lookup, `None` on `KeyError`. -/
def TradeHistory.get_buy (th : TradeHistory) (year month day : ℤ) (ticker : String) :
    Option Buy :=
  (lookup3 th.buyHistory year month day).bind (List.lookup ticker)

/-- `TradeHistory.get_sell`: nested lookup, `None` on `KeyError`. -/
def TradeHistory.get_sell (th : TradeHistory) (year month day : ℤ) (ticker : String) :
    Option Sell :=
  (lookup3 th.sellHistory year month day).bind (List.lookup ticker)

/-- Body of the inner loop of `sum_profits_costs`: add the profit and
cost of the recorded sell for one date and ticker, if any. -/
def sellStep (th : TradeHistory) (dt : ℤ × ℤ × ℤ) (acc : ℚ × ℚ) (tk : String) : ℚ × ℚ :=
  match th.get_sell dt.1 dt.2.1 dt.2.2 tk with
  | some s => (acc.1 + s.profit, acc.2 + s.cost)
  | none => acc

/-- `TradeHistory.sum_profits_costs`: accumulate profit and cost of
every recorded sell over the date × ticker cross product, via the two
nested `for` loops of the source. -/
def TradeHistory.sum_profits_costs (th : TradeHistory) (dates : List (ℤ × ℤ × ℤ))
    (tickers : List String) : ℚ × ℚ :=
  dates.foldl (fun acc dt => tickers.foldl (sellStep th dt) acc) (0, 0)

/-- Class `Asset` from the source: quantity held, cumulative cost,
mark-to-market value, cumulative realized cash flow. -/
structure Asset where
  qty : ℤ
  cost : ℚ
  value : ℚ
  cash : ℚ
deriving DecidableEq

/-- `Asset.__init__`: all fields zero. -/
def Asset.init : Asset := ⟨0, 0, 0, 0⟩

/-- Property `Asset.avg_price`: `cost / qty` when `qty != 0`, else 0. -/
def Asset.avg_price (a : Asset) : ℚ := if a.qty ≠ 0 then a.cost / (a.qty : ℚ) else 0

/-- Property `Asset.profit`: `value - cost`. -/
def Asset.profit (a : Asset) : ℚ := a.value - a.cost

/-- Class `Inventory` from the source: dict ticker → `Asset`. -/
structure Inventory where
  assets : List (String × Asset)
deriving DecidableEq

instance : Inhabited Inventory := ⟨⟨[]⟩⟩

set_option linter.unusedVariables false in
/-- `Inventory.__init__(tickers_interested)`: the parameter is accepted
but the body builds one zero `Asset` per ticker of the module-level
`all_tickers` list. -/
def Inventory.init (tickersInterested : List String) (allTickers : List String) : Inventory :=
  ⟨allTickers.map (fun ticker => (ticker, Asset.init))⟩

/-- `Inventory.value`: sum of `assets[ticker].value` over the requested
tickers; `none` models the `KeyError` on an unknown ticker. -/
def Inventory.value (inv : Inventory) (tickers : List String) : Option ℚ :=
  (tickers.mapM (fun tk => List.lookup tk inv.assets)).map (fun l => (l.map Asset.value).sum)

/-- `Inventory.profits`: sum of `assets[ticker].profit` over the
requested tickers; `none` models the `KeyError` on an unknown ticker. -/
def Inventory.profits (inv : Inventory) (tickers : List String) : Option ℚ :=
  (tickers.mapM (fun tk => List.lookup tk inv.assets)).map (fun l => (l.map Asset.profit).sum)

/-- `Inventory.costs`: sum of `assets[ticker].cost` over the requested
tickers; `none` models the `KeyError` on an unknown ticker. -/
def Inventory.costs (inv : Inventory) (tickers : List String) : Option ℚ :=
  (tickers.mapM (fun tk => List.lookup tk inv.assets)).map (fun l => (l.map Asset.cost).sum)

/-- `Inventory.cash`: sum of `assets[ticker].cash` over the requested
tickers; `none` models the `KeyError` on an unknown ticker. -/
def Inventory.cash (inv : Inventory) (tickers : List String) : Option ℚ :=
  (tickers.mapM (fun tk => List.lookup tk inv.assets)).map (fun l => (l.map Asset.cash).sum)

/-- Python `max(key for key in l if key <= b)`: `none` models the
`ValueError` raised on an empty generator. -/
def maxLeq (l : List ℤ) (b : ℤ) : Option ℤ :=
  match l with
  | [] => none
  | k :: rest =>
    match maxLeq rest b with
    | none => if k ≤ b then some k else none
    | some m => if k ≤ b then some (max k m) else some m

/-- Key list of an association list (`d.keys()`). -/
def keysOf {α : Type} (l : List (ℤ × α)) : List ℤ := l.map Prod.fst

/-- `calendar.isleap(year)`. -/
def isleap (year : ℤ) : Bool := year % 4 == 0 && (year % 100 != 0 || year % 400 == 0)

/-- `calendar.monthrange(year, month)[1]`: the number of days of the
month; `none` models the `IllegalMonthError` on a month outside 1..12. -/
def monthrange1 (year month : ℤ) : Option ℤ :=
  if month = 1 ∨ month = 3 ∨ month = 5 ∨ month = 7 ∨ month = 8 ∨ month = 10 ∨ month = 12 then
    some 31
  else if month = 4 ∨ month = 6 ∨ month = 9 ∨ month = 11 then some 30
  else if month = 2 then some (if isleap year then 29 else 28)
  else none

/-- Day-selection phase of `get_closest_available_date`, entered with
the already-selected `year` (whose sub-dictionary is `months`) and the
already-selected `month`: pick the largest indexed day `≤ day`, and on
failure fall back to `month - 1` capped by `monthrange`. -/
def gcadDay {α : Type} (year : ℤ) (months : List (ℤ × List (ℤ × α))) (month day : ℤ) :
    Option (ℤ × ℤ × ℤ) :=
  match List.lookup month months with
  | none => none
  | some days =>
    match maxLeq (keysOf days) day with
    | some d0 => some (year, month, d0)
    | none =>
      match maxLeq (keysOf months) month with
      | none => none
      | some m2 =>
        match List.lookup (m2 - 1) months with
        | none => none
        | some days2 =>
          match monthrange1 year (m2 - 1) with
          | none => none
          | some bound =>
            match maxLeq (keysOf days2) bound with
            | none => none
            | some d0 => some (year, m2 - 1, d0)

/-- `get_closest_available_date(year, month, day, d)` from the source:
largest indexed year `≤ year`, then largest indexed month `≤ month`
(falling back to `year - 1` and its largest month `≤ 12`), then the
day phase `gcadDay`; `none` models any uncaught exception. -/
def getClosestAvailableDate {α : Type} (year month day : ℤ) (d : DateIndexed α) :
    Option (ℤ × ℤ × ℤ) :=
  match maxLeq (keysOf d) year with
  | none => none
  | some y0 =>
    match List.lookup y0 d with
    | none => none
    | some months =>
      match maxLeq (keysOf months) month with
      | some m0 => gcadDay y0 months m0 day
      | none =>
        match List.lookup (y0 - 1) d with
        | none => none
        | some months2 =>
          match maxLeq (keysOf months2) 12 with
          | none => none
          | some m0 => gcadDay (y0 - 1) months2 m0 day

/-- A date `(y, m, dd)` is present in a nested date index. -/
def indexedDate {α : Type} (d : DateIndexed α) (y m dd : ℤ) : Bool :=
  match List.lookup y d with
  | none => false
  | some months =>
    match List.lookup m months with
    | none => false
    | some days => (keysOf days).contains dd

/-- Lexicographic order on `(year, month, day)` triples. -/
def dateLe (a b : ℤ × ℤ × ℤ) : Prop :=
  a.1 < b.1 ∨ (a.1 = b.1 ∧ (a.2.1 < b.2.1 ∨ (a.2.1 = b.2.1 ∧ a.2.2 ≤ b.2.2)))

instance (a b : ℤ × ℤ × ℤ) : Decidable (dateLe a b) := by
  unfold dateLe
  infer_instance

/-- Class `InventorySnapshot` from the source, with an explicit heap so
that Python object identity and `copy.deepcopy` are observable: `heap`
holds every `Inventory` object ever allocated (an address is an index),
and `snapshot` is the nested date dictionary, storing addresses. -/
structure InventorySnapshot where
  heap : List Inventory
  snapshot : DateIndexed ℕ
deriving DecidableEq

/-- `InventorySnapshot.take_snapshot(year, month, day, inventory)`:
`copy.deepcopy` allocates a fresh copy of the live inventory at address
`heap.length`, and the chained `setdefault` calls store that address
only when no snapshot exists yet for the date. -/
def take_snapshot (year month day : ℤ) (live : ℕ) (st : InventorySnapshot) :
    InventorySnapshot :=
  { heap := st.heap ++ [st.heap.getD live default],
    snapshot := (updNested year
      (updNested month (setdefaultA day st.heap.length) []) [] st.snapshot) }

/-- `InventorySnapshot.get(year, month, day)`: nested lookup followed by
dereferencing the stored address; `none` models `KeyError` → `None`. -/
def snapGet (st : InventorySnapshot) (year month day : ℤ) : Option Inventory :=
  (lookup3 st.snapshot year month day).bind (fun a => st.heap[a]?)

/-- Mutation of the live `Inventory` object (as the accounting engine
does between snapshots): overwrite the heap cell at the live address. -/
def mutateLive (live : ℕ) (f : Inventory → Inventory) (st : InventorySnapshot) :
    InventorySnapshot :=
  { st with heap := st.heap.set live (f (st.heap.getD live default)) }

/-- An address occurs somewhere in the snapshot dictionary. -/
def addrIn (s : DateIndexed ℕ) (a : ℕ) : Bool :=
  s.any (fun ye => ye.2.any (fun me => me.2.any (fun de => de.2 == a)))

/-- `InventorySnapshot.get_closest_inventory(year, month, day)`:
resolve the closest indexed date at or before the target over the
snapshot keyspace, then fetch that snapshot; `none` models both a
raised lookup error and the caught `KeyError` → `None`. -/
def get_closest_inventory (st : InventorySnapshot) (year month day : ℤ) : Option Inventory :=
  match getClosestAvailableDate year month day st.snapshot with
  | none => none
  | some (y, m, d) => snapGet st y m d

/-- `get_daily_price(year, month, day, ticker)`: nested dict lookup in
`price_daily`; `none` models the `KeyError` on a missing entry. -/
def get_daily_price (prices : DateIndexed (List (String × ℚ))) (year month day : ℤ)
    (ticker : String) : Option ℚ :=
  (lookup3 prices year month day).bind (List.lookup ticker)

/-- The mutable module-level state touched by `process_trade`:
`inventory_curr` and `trades`. -/
structure PState where
  inv : Inventory
  trades : TradeHistory
deriving DecidableEq

/-- `process_trade(year, month, day, ticker, qty, order_type)`: look up
the end-of-day price, record the trade, and update the ticker's
`Asset` by average-cost accounting; `none` models a `KeyError` from
the price table or the inventory dictionary. -/
def process_trade (prices : DateIndexed (List (String × ℚ))) (year month day : ℤ)
    (ticker : String) (qty : ℤ) (orderType : String) (st : PState) : Option PState :=
  (get_daily_price prices year month day ticker).bind fun eodPrice =>
    (List.lookup ticker st.inv.assets).bind fun a =>
      if orderType = BUY then
        some ⟨⟨setA ticker
            { a with qty := a.qty + qty,
                     cost := a.cost + eodPrice * qty,
                     cash := a.cash - eodPrice * qty } st.inv.assets⟩,
          st.trades.add_buy year month day ⟨ticker, eodPrice, qty⟩⟩
      else
        some ⟨⟨setA ticker
            { a with cash := a.cash + eodPrice * qty,
                     cost := a.cost - a.avg_price * qty,
                     qty := a.qty - qty } st.inv.assets⟩,
          st.trades.add_sell year month day
            ⟨ticker, eodPrice, qty, (eodPrice - a.avg_price) * qty, a.avg_price * qty⟩⟩

/-- One row of the transaction feed. -/
structure TradeRec where
  year : ℤ
  month : ℤ
  day : ℤ
  ticker : String
  qty : ℤ
  side : String
deriving DecidableEq

/-- Replay a transaction sequence through `process_trade`, as the
engine's chronological loop does; `none` as soon as one trade fails. -/
def applyTrades (prices : DateIndexed (List (String × ℚ))) :
    List TradeRec → PState → Option PState
  | [], st => some st
  | t :: rest, st =>
    match process_trade prices t.year t.month t.day t.ticker t.qty t.side st with
    | none => none
    | some st' => applyTrades prices rest st'

/-- Guard condition under which no-short-selling can hold: every trade
has positive quantity and every sell is covered by the quantity held at
its execution point. -/
def safeTrades (prices : DateIndexed (List (String × ℚ))) :
    List TradeRec → PState → Bool
  | [], _ => true
  | t :: rest, st =>
    decide (0 < t.qty) &&
    (t.side == BUY ||
      (match List.lookup t.ticker st.inv.assets with
       | some a => decide (t.qty ≤ a.qty)
       | none => true)) &&
    (match process_trade prices t.year t.month t.day t.ticker t.qty t.side st with
     | none => true
     | some st' => safeTrades prices rest st')

/-- Every position of the inventory holds a non-negative quantity. -/
def InvNonneg (inv : Inventory) : Prop := ∀ p ∈ inv.assets, 0 ≤ p.2.qty

instance (inv : Inventory) : Decidable (InvNonneg inv) := by
  unfold InvNonneg
  infer_instance

/-- `np.mean(x)` over exact rationals. -/
def npMean (x : List ℚ) : ℚ := x.sum / x.length

/-- `np.var(x)` over exact rationals: population variance (`ddof=0`). -/
def npVar (x : List ℚ) : ℚ := (x.map (fun v => (v - npMean x) ^ 2)).sum / x.length

/-- `np.cov(x, y)[0, 1]` over exact rationals: sample covariance with
numpy's default `ddof=1` normalisation, dividing by `len(x) - 1`. -/
def npCov (x y : List ℚ) : ℚ :=
  (List.zipWith (fun a b => (a - npMean x) * (b - npMean y)) x y).sum / ((x.length : ℚ) - 1)

/-- `get_beta(ret_ticker, ret_market)`: `np.cov(...)[0,1] / np.var(ret_market)`. -/
def get_beta (ret_ticker ret_market : List ℚ) : ℚ := npCov ret_ticker ret_market / npVar ret_market

/-- `np.std(x)`: square root of the population variance, as a real. -/
noncomputable def npStd (x : List ℚ) : ℝ := Real.sqrt ((npVar x : ℚ) : ℝ)

open Classical in
/-- `get_sharpe_ratio(ret_ticker)`: `(mean - RISK_FREE_RATE) / std`,
with a zero standard deviation replaced by 1 (the source also prints a
diagnostic in that branch; printing is not modelled). -/
noncomputable def get_sharpe_ratio (ret_ticker : List ℚ) : ℝ :=
  let averageReturn : ℝ := ((npMean ret_ticker : ℚ) : ℝ)
  let volatility : ℝ := npStd ret_ticker
  let volatility : ℝ := if volatility = 0 then 1 else volatility
  (averageReturn - ((RISK_FREE_RATE : ℚ) : ℝ)) / volatility

/-- The nine-component result of `get_profits_cost`. -/
structure ProfitsCost where
  realizedProfits : ℚ
  realizedCost : ℚ
  realizedPct : ℚ
  unrealizedProfits : ℚ
  unrealizedCost : ℚ
  unrealizedPct : ℚ
  totalProfits : ℚ
  totalCost : ℚ
  totalPct : ℚ
deriving DecidableEq

/-- `get_profits_cost(dates, tickers)`: realized figures from the trade
ledger, unrealized figures from the snapshot closest to the last date,
each percentage `profit / cost * 100` guarded by `cost > EPS`; `none`
models the `IndexError` on an empty date list and the exceptions
arising from a failed snapshot or ticker lookup. -/
def get_profits_cost (th : TradeHistory) (snap : InventorySnapshot)
    (dates : List (ℤ × ℤ × ℤ)) (tickers : List String) : Option ProfitsCost :=
  (dates.getLast?).bind fun lastDate =>
    (get_closest_inventory snap lastDate.1 lastDate.2.1 lastDate.2.2).bind fun inventory =>
      (inventory.profits tickers).bind fun up =>
        (inventory.costs tickers).bind fun uc =>
          some ⟨(th.sum_profits_costs dates tickers).1,
            (th.sum_profits_costs dates tickers).2,
            (if (th.sum_profits_costs dates tickers).2 > EPS then
              (th.sum_profits_costs dates tickers).1 /
                (th.sum_profits_costs dates tickers).2 * 100 else 0),
            up, uc,
            (if uc > EPS then up / uc * 100 else 0),
            (th.sum_profits_costs dates tickers).1 + up,
            (th.sum_profits_costs dates tickers).2 + uc,
            (if (th.sum_profits_costs dates tickers).2 + uc > EPS then
              ((th.sum_profits_costs dates tickers).1 + up) /
                ((th.sum_profits_costs dates tickers).2 + uc) * 100 else 0)⟩

/-- One ledger operation: a call to `add_buy` or to `add_sell`. -/
inductive TOp where
  | buy (year month day : ℤ) (b : Buy)
  | sell (year month day : ℤ) (s : Sell)
deriving DecidableEq

/-- Apply a sequence of ledger operations in order. -/
def applyOps : List TOp → TradeHistory → TradeHistory
  | [], th => th
  | .buy y m d b :: rest, th => applyOps rest (th.add_buy y m d b)
  | .sell y m d s :: rest, th => applyOps rest (th.add_sell y m d s)

/-- Reference function written from the claim's words: the first Buy
inserted for a given (year, month, day, ticker) key. -/
def specFirstBuy (y m d : ℤ) (tk : String) : List TOp → Option Buy
  | [] => none
  | .buy y' m' d' b :: rest =>
    if y' = y ∧ m' = m ∧ d' = d ∧ b.ticker = tk then some b else specFirstBuy y m d tk rest
  | .sell _ _ _ _ :: rest => specFirstBuy y m d tk rest

/-- Reference function written from the claim's words: the first Sell
inserted for a given (year, month, day, ticker) key. -/
def specFirstSell (y m d : ℤ) (tk : String) : List TOp → Option Sell
  | [] => none
  | .sell y' m' d' s :: rest =>
    if y' = y ∧ m' = m ∧ d' = d ∧ s.ticker = tk then some s else specFirstSell y m d tk rest
  | .buy _ _ _ _ :: rest => specFirstSell y m d tk rest

/-- Concrete price table: ticker A closes at 100 on 2020-01-02 and at
110 on 2020-01-03. -/
def pricesEx : DateIndexed (List (String × ℚ)) :=
  [(2020, [(1, [(2, [("A", 100)]), (3, [("A", 110)])])])]

/-- Concrete position: 10 shares of A bought at 100. -/
def assetEx : Asset := ⟨10, 1000, 0, -1000⟩

/-- Concrete engine state holding `assetEx`. -/
def stEx : PState := ⟨⟨[("A", assetEx)]⟩, TradeHistory.empty⟩

/-- Engine state expected after selling 5 shares of A at 110. -/
def stExAfter : PState :=
  ⟨⟨[("A", ⟨5, 500, 0, -450⟩)]⟩,
    ⟨[], [(2020, [(1, [(3, [("A", ⟨"A", 110, 5, 50, 500⟩)])])])]⟩⟩

/-- Concrete zero-initialised engine state over the single ticker A. -/
def stZero : PState := ⟨⟨[("A", Asset.init)]⟩, TradeHistory.empty⟩

/-- A sell of one share of A from the empty position. -/
def sellRecEx : TradeRec := ⟨2020, 1, 2, "A", 1, SELL⟩

/-- Engine state expected after `sellRecEx` from `stZero`: the short
position `qty = -1`. -/
def stShort : PState :=
  ⟨⟨[("A", ⟨-1, 0, 0, 100⟩)]⟩,
    ⟨[], [(2020, [(1, [(2, [("A", ⟨"A", 100, 1, 100, 0⟩)])])])]⟩⟩

/-- A covered trade sequence: buy 2 shares of A, then sell 1. -/
def tradesCovered : List TradeRec := [⟨2020, 1, 2, "A", 2, BUY⟩, ⟨2020, 1, 3, "A", 1, SELL⟩]

/-- Engine state expected after `tradesCovered` from `stZero`. -/
def stCovered : PState :=
  ⟨⟨[("A", ⟨1, 100, 0, -90⟩)]⟩,
    ⟨[(2020, [(1, [(2, [("A", ⟨"A", 100, 2⟩)])])])],
     [(2020, [(1, [(3, [("A", ⟨"A", 110, 1, 10, 100⟩)])])])]⟩⟩

/-- Concrete date index exhibiting the closest-date defect: 2021 holds
January 10 and February 10 and 20. -/
def idxGcad : DateIndexed ℕ := [(2021, [(1, [(10, 0)]), (2, [(10, 1), (20, 2)])])]

/-- Concrete snapshot store: an empty snapshot dictionary and one live
inventory at address 0. -/
def snapStoreEx : InventorySnapshot := ⟨[⟨[("A", Asset.init)]⟩], []⟩

/-- Concrete snapshot store holding one committed snapshot of a single
zero position at 2020-01-02 (address 0). -/
def snapStoreOne : InventorySnapshot := ⟨[⟨[("A", Asset.init)]⟩], [(2020, [(1, [(2, 0)])])]⟩

theorem lookup_mem {κ α : Type} [DecidableEq κ] {k : κ} :
    ∀ {l : List (κ × α)} {v : α}, List.lookup k l = some v → (k, v) ∈ l := by
  intro l
  induction l with
  | nil => intro v h; simp [List.lookup] at h
  | cons p rest ih =>
    intro v h
    obtain ⟨k1, v1⟩ := p
    by_cases hk : k = k1
    · subst hk
      simp [List.lookup] at h
      subst h
      exact List.mem_cons_self _ _
    · simp [List.lookup, beq_false_of_ne hk] at h
      exact List.mem_cons_of_mem _ (ih h)

theorem mem_keys_lookup {α : Type} {k : ℤ} {l : List (ℤ × α)} (h : k ∈ keysOf l) :
    ∃ v, List.lookup k l = some v := by
  induction l with
  | nil => simp [keysOf] at h
  | cons p rest ih =>
    simp only [keysOf, List.map_cons, List.mem_cons] at h
    by_cases hk : k = p.1
    · exact ⟨p.2, by simp [List.lookup, hk]⟩
    · rcases h with h | h
      · exact absurd h hk
      · rcases ih h with ⟨v, hv⟩
        exact ⟨v, by simp [List.lookup, beq_false_of_ne hk, hv]⟩

theorem maxLeq_le : ∀ {l : List ℤ} {b v : ℤ}, maxLeq l b = some v → v ≤ b := by
  intro l
  induction l with
  | nil => intro b v h; simp [maxLeq] at h
  | cons k rest ih =>
    intro b v h
    rw [maxLeq] at h
    rcases hrest : maxLeq rest b with _ | m <;> rw [hrest] at h
    · by_cases hk : k ≤ b
      · simp [hk] at h
        omega
      · simp [hk] at h
    · have hm := ih hrest
      by_cases hk : k ≤ b
      · simp [hk] at h
        rcases max_choice k m with hc | hc <;> rw [hc] at h <;> omega
      · simp [hk] at h
        omega

theorem maxLeq_mem : ∀ {l : List ℤ} {b v : ℤ}, maxLeq l b = some v → v ∈ l := by
  intro l
  induction l with
  | nil => intro b v h; simp [maxLeq] at h
  | cons k rest ih =>
    intro b v h
    rw [maxLeq] at h
    rcases hrest : maxLeq rest b with _ | m <;> rw [hrest] at h
    · by_cases hk : k ≤ b
      · simp [hk] at h
        simp [h]
      · simp [hk] at h
    · have hm := ih hrest
      by_cases hk : k ≤ b
      · simp [hk] at h
        rcases max_choice k m with hc | hc <;> rw [hc] at h
        · simp [h]
        · right
          rw [← h]
          exact hm
      · simp [hk] at h
        right
        rw [← h]
        exact hm

theorem maxLeq_self : ∀ {l : List ℤ} {a : ℤ}, a ∈ l → maxLeq l a = some a := by
  intro l
  induction l with
  | nil => intro a h; simp at h
  | cons k rest ih =>
    intro a h
    rcases List.mem_cons.mp h with hk | hmem
    · subst hk
      rw [maxLeq]
      rcases hrest : maxLeq rest a with _ | m
      · simp
      · have hm := maxLeq_le hrest
        simp [max_eq_left hm]
    · have hrest := ih hmem
      rw [maxLeq, hrest]
      by_cases hk : k ≤ a
      · simp [hk, max_eq_right (maxLeq_le hrest)]
      · simp [hk]

theorem mem_setA {κ α : Type} [DecidableEq κ] {k : κ} {v : α} {p : κ × α} :
    ∀ {l : List (κ × α)}, p ∈ setA k v l → p = (k, v) ∨ p ∈ l := by
  intro l
  induction l with
  | nil =>
    intro h
    simp [setA] at h
    exact Or.inl h
  | cons q rest ih =>
    intro h
    obtain ⟨k1, v1⟩ := q
    rw [setA] at h
    by_cases hk : k1 = k
    · rw [if_pos hk] at h
      rcases List.mem_cons.mp h with h1 | h1
      · exact Or.inl h1
      · exact Or.inr (List.mem_cons_of_mem _ h1)
    · rw [if_neg hk] at h
      rcases List.mem_cons.mp h with h1 | h1
      · exact Or.inr (by simp [h1])
      · rcases ih h1 with h2 | h2
        · exact Or.inl h2
        · exact Or.inr (List.mem_cons_of_mem _ h2)

theorem lookup_setdefaultA_self {κ α : Type} [DecidableEq κ] {k : κ} {v : α} :
    ∀ {l : List (κ × α)},
      List.lookup k (setdefaultA k v l) = some ((List.lookup k l).getD v) := by
  intro l
  induction l with
  | nil => simp [setdefaultA, List.lookup]
  | cons q rest ih =>
    obtain ⟨k1, v1⟩ := q
    rw [setdefaultA]
    by_cases hk : k1 = k
    · subst hk
      simp [List.lookup]
    · rw [if_neg hk]
      have hne : k ≠ k1 := fun h => hk h.symm
      simp [List.lookup, beq_false_of_ne hne, ih]

theorem lookup_setdefaultA_ne {κ α : Type} [DecidableEq κ] {k k' : κ} {v : α} (hne : k' ≠ k) :
    ∀ {l : List (κ × α)}, List.lookup k' (setdefaultA k v l) = List.lookup k' l := by
  intro l
  induction l with
  | nil => simp [setdefaultA, List.lookup, beq_false_of_ne hne]
  | cons q rest ih =>
    obtain ⟨k1, v1⟩ := q
    rw [setdefaultA]
    by_cases hk : k1 = k
    · rw [if_pos hk]
    · rw [if_neg hk]
      by_cases hk' : k' = k1
      · subst hk'
        simp [List.lookup]
      · simp [List.lookup, beq_false_of_ne hk', ih]

theorem lookup_updNested_self {κ α : Type} [DecidableEq κ] {k : κ} {f : α → α} {dflt : α} :
    ∀ {l : List (κ × α)},
      List.lookup k (updNested k f dflt l) = some (f ((List.lookup k l).getD dflt)) := by
  intro l
  induction l with
  | nil => simp [updNested, List.lookup]
  | cons q rest ih =>
    obtain ⟨k1, v1⟩ := q
    rw [updNested]
    by_cases hk : k1 = k
    · subst hk
      simp [List.lookup]
    · rw [if_neg hk]
      have hne : k ≠ k1 := fun h => hk h.symm
      simp [List.lookup, beq_false_of_ne hne, ih]

theorem lookup_updNested_ne {κ α : Type} [DecidableEq κ] {k k' : κ} {f : α → α} {dflt : α}
    (hne : k' ≠ k) :
    ∀ {l : List (κ × α)}, List.lookup k' (updNested k f dflt l) = List.lookup k' l := by
  intro l
  induction l with
  | nil => simp [updNested, List.lookup, beq_false_of_ne hne]
  | cons q rest ih =>
    obtain ⟨k1, v1⟩ := q
    rw [updNested]
    by_cases hk : k1 = k
    · rw [if_pos hk]
      subst hk
      simp [List.lookup, beq_false_of_ne hne]
    · rw [if_neg hk]
      by_cases hk' : k' = k1
      · subst hk'
        simp [List.lookup]
      · simp [List.lookup, beq_false_of_ne hk', ih]

/-- C10: the `Inventory` constructor ignores its `tickers_interested`
parameter: any two argument values produce identical inventories, and
the result always holds exactly one zero-initialised `Asset` per ticker
of the module-level `all_tickers` list. -/
theorem inventory_init_ignores_param (t1 t2 allTickers : List String) :
    Inventory.init t1 allTickers = Inventory.init t2 allTickers ∧
    (Inventory.init t1 allTickers).assets =
      allTickers.map (fun ticker => (ticker, Asset.init)) :=
  ⟨rfl, rfl⟩

theorem process_trade_sell_eq (prices : DateIndexed (List (String × ℚ)))
    (year month day : ℤ) (ticker : String) (n : ℤ) (p : ℚ) (st : PState) (a : Asset)
    (hp : get_daily_price prices year month day ticker = some p)
    (ha : List.lookup ticker st.inv.assets = some a) :
    process_trade prices year month day ticker n SELL st =
      some ⟨⟨setA ticker
          { a with cash := a.cash + p * n,
                   cost := a.cost - a.avg_price * n,
                   qty := a.qty - n } st.inv.assets⟩,
        st.trades.add_sell year month day
          ⟨ticker, p, n, (p - a.avg_price) * n, a.avg_price * n⟩⟩ := by
  rw [process_trade, hp, ha]
  simp [SELL, BUY]

/-- C1: for any position `a` (quantity `q`, cost basis `c`) and any
sell of `n` shares at price `p`, `process_trade` with `SELL` computes
`avg = c/q` (0 when `q = 0`), records a `Sell` event with realized
profit `(p - avg) * n` and cost consumed `avg * n`, and updates the
position to cost `c - avg*n`, quantity `q - n`, and cash increased by
`p*n`; the update succeeds for every `q` and `n`, including `q = 0`
and `n > q`. -/
theorem process_trade_sell_spec (prices : DateIndexed (List (String × ℚ)))
    (year month day : ℤ) (ticker : String) (n : ℤ) (p : ℚ) (st : PState) (a : Asset)
    (hp : get_daily_price prices year month day ticker = some p)
    (ha : List.lookup ticker st.inv.assets = some a) :
    process_trade prices year month day ticker n SELL st =
      some ⟨⟨setA ticker
          { a with cash := a.cash + p * n,
                   cost := a.cost - a.avg_price * n,
                   qty := a.qty - n } st.inv.assets⟩,
        st.trades.add_sell year month day
          ⟨ticker, p, n, (p - a.avg_price) * n, a.avg_price * n⟩⟩ ∧
    a.avg_price = (if a.qty ≠ 0 then a.cost / (a.qty : ℚ) else 0) :=
  ⟨process_trade_sell_eq prices year month day ticker n p st a hp ha, rfl⟩

/-- C1 witness: selling 5 shares at 110 from a position of 10 shares
bought at 100 realizes profit 50 and leaves quantity 5, cost 500. -/
theorem process_trade_sell_witness :
    process_trade pricesEx 2020 1 3 "A" 5 SELL stEx = some stExAfter ∧
    assetEx.avg_price = 100 ∧ stExAfter.inv.assets = [("A", ⟨5, 500, 0, -450⟩)] := by
  have havg : assetEx.avg_price = 100 := by
    norm_num [assetEx, Asset.avg_price]
  have h := process_trade_sell_spec pricesEx 2020 1 3 "A" 5 110 stEx assetEx
    (by decide) (by decide)
  refine ⟨?_, havg, rfl⟩
  rw [h.1]
  simp only [stEx, stExAfter, assetEx, setA, TradeHistory.add_sell, TradeHistory.empty,
    updNested, setdefaultA]
  norm_num [Asset.avg_price]

theorem process_trade_preserves_nonneg (prices : DateIndexed (List (String × ℚ)))
    (year month day : ℤ) (ticker : String) (q : ℤ) (side : String) (st st' : PState)
    (hnn : InvNonneg st.inv) (hq : 0 < q)
    (hcov : side = BUY ∨ ∀ a, List.lookup ticker st.inv.assets = some a → q ≤ a.qty)
    (h : process_trade prices year month day ticker q side st = some st') :
    InvNonneg st'.inv := by
  rw [process_trade] at h
  rcases hp : get_daily_price prices year month day ticker with _ | price <;> rw [hp] at h
  · exact absurd h (by simp)
  rw [Option.some_bind] at h
  rcases ha : List.lookup ticker st.inv.assets with _ | a <;> rw [ha] at h
  · exact absurd h (by simp)
  rw [Option.some_bind] at h
  have hmem := lookup_mem ha
  have hannn : 0 ≤ a.qty := hnn (ticker, a) hmem
  by_cases hside : side = BUY
  · rw [if_pos hside] at h
    obtain rfl : st' = _ := (Option.some_inj.mp h).symm
    intro p hmemp
    rcases mem_setA hmemp with h1 | h1
    · subst h1
      simp only
      omega
    · exact hnn p h1
  · rw [if_neg hside] at h
    obtain rfl : st' = _ := (Option.some_inj.mp h).symm
    have hqa : q ≤ a.qty := by
      rcases hcov with hc | hc
      · exact absurd hc hside
      · exact hc a ha
    intro p hmemp
    rcases mem_setA hmemp with h1 | h1
    · subst h1
      simp only
      omega
    · exact hnn p h1

/-- C3 counterexample: from the zero-initialized inventory, a single
sell of one share (a positive quantity) is accepted by `process_trade`
and leaves quantity `-1`: the non-negativity invariant is violated, so
short selling is possible. -/
theorem applyTrades_negative_qty :
    applyTrades pricesEx [sellRecEx] stZero = some stShort ∧
    List.lookup "A" stShort.inv.assets = some ⟨-1, 0, 0, 100⟩ ∧
    0 < sellRecEx.qty ∧ ¬ InvNonneg stShort.inv := by
  refine ⟨?_, by decide, by decide, by decide⟩
  show (match process_trade pricesEx 2020 1 2 "A" 1 SELL stZero with
    | none => none
    | some st' => applyTrades pricesEx [] st') = some stShort
  have h1 : process_trade pricesEx 2020 1 2 "A" 1 SELL stZero = some stShort := by
    have h2 := process_trade_sell_eq pricesEx 2020 1 2 "A" 1 100 stZero Asset.init
      (by decide) (by decide)
    rw [h2]
    simp only [stZero, stShort, Asset.init, setA, TradeHistory.add_sell, TradeHistory.empty,
      updNested, setdefaultA]
    norm_num [Asset.avg_price]
  rw [h1]
  rfl

/-- C3 (amended): quantities can go negative in general (see the
counterexample), but under the guard that every trade has positive
quantity and every sell is covered by the quantity currently held, any
state reached by replaying trades from a non-negative inventory keeps
every position quantity non-negative. -/
theorem applyTrades_nonneg (prices : DateIndexed (List (String × ℚ))) :
    ∀ (ts : List TradeRec) (st st' : PState), InvNonneg st.inv →
      safeTrades prices ts st = true → applyTrades prices ts st = some st' →
      InvNonneg st'.inv := by
  intro ts
  induction ts with
  | nil =>
    intro st st' hnn _ happ
    rw [applyTrades] at happ
    obtain rfl : st = st' := Option.some_inj.mp happ
    exact hnn
  | cons t rest ih =>
    intro st st' hnn hsafe happ
    rw [safeTrades, Bool.and_eq_true, Bool.and_eq_true] at hsafe
    obtain ⟨⟨hq, hcov⟩, hrest⟩ := hsafe
    rw [applyTrades] at happ
    rcases hstep : process_trade prices t.year t.month t.day t.ticker t.qty t.side st
      with _ | st1 <;> rw [hstep] at happ
    · exact absurd happ (by simp)
    have hq' : 0 < t.qty := of_decide_eq_true hq
    have hcov' : t.side = BUY ∨
        ∀ a, List.lookup t.ticker st.inv.assets = some a → t.qty ≤ a.qty := by
      rw [Bool.or_eq_true] at hcov
      rcases hcov with hc | hc
      · exact Or.inl (by simpa using hc)
      · right
        intro a ha
        rw [ha] at hc
        exact of_decide_eq_true hc
    have hnn1 := process_trade_preserves_nonneg prices t.year t.month t.day t.ticker
      t.qty t.side st st1 hnn hq' hcov' hstep
    rw [hstep] at hrest
    exact ih st1 st' hnn1 hrest happ

/-- C3 witness: the guarded invariant holds on a concrete covered run:
buy 2 shares of A, then sell 1; the final inventory is non-negative. -/
theorem applyTrades_nonneg_witness : InvNonneg stCovered.inv := by
  have happ : applyTrades pricesEx tradesCovered stZero = some stCovered := by
    have h1 : process_trade pricesEx 2020 1 2 "A" 2 BUY stZero =
        some ⟨⟨[("A", ⟨2, 200, 0, -200⟩)]⟩,
          ⟨[(2020, [(1, [(2, [("A", ⟨"A", 100, 2⟩)])])])], []⟩⟩ := by
      rw [process_trade]
      have hp : get_daily_price pricesEx 2020 1 2 "A" = some 100 := by decide
      rw [hp, Option.some_bind]
      have ha : List.lookup "A" stZero.inv.assets = some Asset.init := by decide
      rw [ha, Option.some_bind, if_pos rfl]
      simp only [stZero, Asset.init, setA, TradeHistory.add_buy, TradeHistory.empty,
        updNested, setdefaultA]
      norm_num
    have h2 := process_trade_sell_eq pricesEx 2020 1 3 "A" 1 110
      ⟨⟨[("A", ⟨2, 200, 0, -200⟩)]⟩, ⟨[(2020, [(1, [(2, [("A", ⟨"A", 100, 2⟩)])])])], []⟩⟩
      ⟨2, 200, 0, -200⟩ (by decide) (by decide)
    show (match process_trade pricesEx 2020 1 2 "A" 2 BUY stZero with
      | none => none
      | some st' => applyTrades pricesEx [⟨2020, 1, 3, "A", 1, SELL⟩] st') = some stCovered
    rw [h1]
    show (match process_trade pricesEx 2020 1 3 "A" 1 SELL
        ⟨⟨[("A", ⟨2, 200, 0, -200⟩)]⟩,
          ⟨[(2020, [(1, [(2, [("A", ⟨"A", 100, 2⟩)])])])], []⟩⟩ with
      | none => none
      | some st' => applyTrades pricesEx [] st') = some stCovered
    rw [h2]
    have heq : (⟨⟨setA "A"
        { qty := (2:ℤ) - 1, cost := (200:ℚ) - Asset.avg_price ⟨2, 200, 0, -200⟩ * (1:ℤ),
          value := 0, cash := (-200:ℚ) + 110 * (1:ℤ) }
        [("A", ⟨2, 200, 0, -200⟩)]⟩,
      TradeHistory.add_sell ⟨[(2020, [(1, [(2, [("A", ⟨"A", 100, 2⟩)])])])], []⟩ 2020 1 3
        ⟨"A", 110, 1, (110 - Asset.avg_price ⟨2, 200, 0, -200⟩) * (1:ℤ),
          Asset.avg_price ⟨2, 200, 0, -200⟩ * (1:ℤ)⟩⟩ : PState) = stCovered := by
      simp only [stCovered, setA, TradeHistory.add_sell, updNested, setdefaultA]
      norm_num [Asset.avg_price]
    rw [heq]
    rfl
  have hsafe : safeTrades pricesEx tradesCovered stZero = true := by decide
  exact applyTrades_nonneg pricesEx tradesCovered stZero stCovered (by decide) hsafe happ

theorem zipWith_self {α β : Type} (f : α → α → β) :
    ∀ l : List α, List.zipWith f l l = l.map (fun a => f a a) := by
  intro l
  induction l with
  | nil => rfl
  | cons a rest ih => simp [List.zipWith, ih]

/-- C4 counterexample: on the benchmark return series `[0, 1]` (length
two, nonzero variance) `get_beta` applied to the series against itself
yields `2`, not `1`: `np.cov` divides by `n - 1` (sample, `ddof=1`)
while `np.var` divides by `n` (population, `ddof=0`). -/
theorem get_beta_self_not_one :
    get_beta [0, 1] [0, 1] = 2 ∧ get_beta [0, 1] [0, 1] ≠ 1 ∧
    npVar [0, 1] ≠ 0 ∧ 2 ≤ ([0, 1] : List ℚ).length := by
  have h : get_beta [0, 1] [0, 1] = 2 := by
    norm_num [get_beta, npCov, npVar, npMean]
  refine ⟨h, by rw [h]; norm_num, by norm_num [npVar, npMean], by norm_num⟩

/-- C4 (amended): for every benchmark return series of length `n ≥ 2`
with nonzero variance, the beta used inside `get_alpha` — `get_beta`
of the series against itself — equals `n / (n - 1)`, not `1`, because
`np.cov` normalises by `n - 1` while `np.var` normalises by `n`. -/
theorem get_beta_self_ratio (x : List ℚ) (hlen : 2 ≤ x.length) (hvar : npVar x ≠ 0) :
    get_beta x x = (x.length : ℚ) / ((x.length : ℚ) - 1) := by
  have h2 : (2 : ℚ) ≤ (x.length : ℚ) := by exact_mod_cast hlen
  have hn : (x.length : ℚ) ≠ 0 := by linarith
  have hn1 : (x.length : ℚ) - 1 ≠ 0 := by linarith
  have hcov : npCov x x = (x.map (fun v => (v - npMean x) ^ 2)).sum / ((x.length : ℚ) - 1) := by
    rw [npCov, zipWith_self]
    simp only [← pow_two]
  have hvar' : npVar x = (x.map (fun v => (v - npMean x) ^ 2)).sum / (x.length : ℚ) := rfl
  have hSne : (x.map (fun v => (v - npMean x) ^ 2)).sum ≠ 0 := by
    intro h0
    apply hvar
    rw [hvar', h0, zero_div]
  rw [get_beta, hcov, hvar']
  field_simp
  ring

/-- C4 witness: at the concrete series `[0, 1]` the amended formula
gives `2 / (2 - 1) = 2`. -/
theorem get_beta_self_ratio_witness :
    get_beta [0, 1] [0, 1] = 2 ∧ 2 ≤ ([0, 1] : List ℚ).length ∧ npVar [0, 1] ≠ 0 := by
  have hv : npVar ([0, 1] : List ℚ) ≠ 0 := by norm_num [npVar, npMean]
  have h := get_beta_self_ratio [0, 1] (by norm_num) hv
  refine ⟨?_, by norm_num, hv⟩
  rw [h]
  norm_num

/-- C5: for a non-empty return series, `get_sharpe_ratio` returns
`(mean(x) - RISK_FREE_RATE) / std(x)` where a zero standard deviation
is substituted by 1 (with a printed diagnostic, not modelled), so that
a zero-volatility series yields the finite value `mean(x) - RISK_FREE_RATE`
instead of raising. -/
theorem get_sharpe_ratio_spec (x : List ℚ) (_hx : x ≠ []) :
    get_sharpe_ratio x =
      (((npMean x : ℚ) : ℝ) - ((RISK_FREE_RATE : ℚ) : ℝ)) /
        (if npStd x = 0 then 1 else npStd x) ∧
    (npStd x = 0 →
      get_sharpe_ratio x = ((npMean x : ℚ) : ℝ) - ((RISK_FREE_RATE : ℚ) : ℝ)) := by
  constructor
  · rfl
  · intro h0
    show (((npMean x : ℚ) : ℝ) - ((RISK_FREE_RATE : ℚ) : ℝ)) /
        (if npStd x = 0 then 1 else npStd x) = _
    rw [if_pos h0, div_one]

/-- C5 witness: `sharpe_ratio([0.05, 0.05, 0.05])` has zero standard
deviation and returns the finite value `0.05 - 0.02 = 0.03`. -/
theorem get_sharpe_ratio_witness :
    get_sharpe_ratio [1/20, 1/20, 1/20] = 3/100 ∧ ([1/20, 1/20, 1/20] : List ℚ) ≠ [] := by
  have hvar : npVar [1/20, 1/20, 1/20] = 0 := by norm_num [npVar, npMean]
  have hstd : npStd [1/20, 1/20, 1/20] = 0 := by
    rw [npStd, hvar]
    simp
  have h := (get_sharpe_ratio_spec [1/20, 1/20, 1/20] (by simp)).2 hstd
  refine ⟨?_, by simp⟩
  rw [h]
  have hm : npMean [1/20, 1/20, 1/20] = 1/20 := by norm_num [npMean]
  rw [hm, RISK_FREE_RATE]
  push_cast
  norm_num

theorem foldl_pair_shift {κ : Type} (g : ℚ × ℚ → κ → ℚ × ℚ)
    (hg : ∀ acc k, g acc k = (acc.1 + (g (0, 0) k).1, acc.2 + (g (0, 0) k).2)) :
    ∀ (l : List κ) (acc : ℚ × ℚ),
      l.foldl g acc = (acc.1 + (l.foldl g (0, 0)).1, acc.2 + (l.foldl g (0, 0)).2) := by
  intro l
  induction l with
  | nil => intro acc; simp
  | cons k rest ih =>
    intro acc
    rw [List.foldl_cons, List.foldl_cons, ih (g acc k), ih (g (0, 0) k)]
    rw [hg acc k]
    rw [Prod.mk.injEq]
    constructor <;> ring

theorem sellStep_shift (th : TradeHistory) (dt : ℤ × ℤ × ℤ) (acc : ℚ × ℚ) (tk : String) :
    sellStep th dt acc tk =
      (acc.1 + (sellStep th dt (0, 0) tk).1, acc.2 + (sellStep th dt (0, 0) tk).2) := by
  rw [sellStep, sellStep]
  rcases th.get_sell dt.1 dt.2.1 dt.2.2 tk with _ | s
  · simp
  · simp

/-- C9: `sum_profits_costs` is additive over a concatenation of two
disjoint date lists, componentwise in realized profit and cost. -/
theorem sum_profits_costs_additive (th : TradeHistory) (dA dB : List (ℤ × ℤ × ℤ))
    (tickers : List String) (_hdisj : ∀ dt ∈ dA, dt ∉ dB) :
    (th.sum_profits_costs (dA ++ dB) tickers).1 =
      (th.sum_profits_costs dA tickers).1 + (th.sum_profits_costs dB tickers).1 ∧
    (th.sum_profits_costs (dA ++ dB) tickers).2 =
      (th.sum_profits_costs dA tickers).2 + (th.sum_profits_costs dB tickers).2 := by
  have hF : ∀ (acc : ℚ × ℚ) (dt : ℤ × ℤ × ℤ),
      (fun (acc : ℚ × ℚ) dt => tickers.foldl (sellStep th dt) acc) acc dt =
        (acc.1 + ((fun (acc : ℚ × ℚ) dt => tickers.foldl (sellStep th dt) acc) (0, 0) dt).1,
         acc.2 + ((fun (acc : ℚ × ℚ) dt => tickers.foldl (sellStep th dt) acc) (0, 0) dt).2) := by
    intro acc dt
    exact foldl_pair_shift (sellStep th dt) (sellStep_shift th dt) tickers acc
  rw [TradeHistory.sum_profits_costs, TradeHistory.sum_profits_costs,
    TradeHistory.sum_profits_costs, List.foldl_append]
  rw [foldl_pair_shift _ hF dB]
  exact ⟨rfl, rfl⟩

/-- C9 witness: additivity at a concrete instance — the empty ledger
over the disjoint singleton date lists {2020-01-02} and {2020-01-03}. -/
theorem sum_profits_costs_additive_witness :
    (TradeHistory.empty.sum_profits_costs ([(2020, 1, 2)] ++ [(2020, 1, 3)]) ["A"]).1 =
      (TradeHistory.empty.sum_profits_costs [(2020, 1, 2)] ["A"]).1 +
        (TradeHistory.empty.sum_profits_costs [(2020, 1, 3)] ["A"]).1 ∧
    (TradeHistory.empty.sum_profits_costs ([(2020, 1, 2)] ++ [(2020, 1, 3)]) ["A"]).2 =
      (TradeHistory.empty.sum_profits_costs [(2020, 1, 2)] ["A"]).2 +
        (TradeHistory.empty.sum_profits_costs [(2020, 1, 3)] ["A"]).2 :=
  sum_profits_costs_additive TradeHistory.empty [(2020, 1, 2)] [(2020, 1, 3)] ["A"]
    (by decide)

/-- C6: whenever `get_profits_cost` returns a result, each of the three
percentages equals `profit / cost * 100` when the matching cost exceeds
`EPS = 1e-6` and equals `0` when that cost is at most `EPS`; in
particular a total cost of `0` yields a total percentage of `0` (exact
rational arithmetic: no division by zero, NaN, infinity or exception). -/
theorem get_profits_cost_pct_spec (th : TradeHistory) (snap : InventorySnapshot)
    (dates : List (ℤ × ℤ × ℤ)) (tickers : List String) (r : ProfitsCost)
    (h : get_profits_cost th snap dates tickers = some r) :
    (r.realizedPct =
      if r.realizedCost > EPS then r.realizedProfits / r.realizedCost * 100 else 0) ∧
    (r.unrealizedPct =
      if r.unrealizedCost > EPS then r.unrealizedProfits / r.unrealizedCost * 100 else 0) ∧
    (r.totalPct = if r.totalCost > EPS then r.totalProfits / r.totalCost * 100 else 0) ∧
    (r.totalCost ≤ EPS → r.totalPct = 0) ∧ (r.totalCost = 0 → r.totalPct = 0) ∧
    r.totalProfits = r.realizedProfits + r.unrealizedProfits ∧
    r.totalCost = r.realizedCost + r.unrealizedCost := by
  rw [get_profits_cost] at h
  rcases hlast : dates.getLast? with _ | lastDate <;> rw [hlast] at h
  · exact absurd h (by simp)
  rw [Option.some_bind] at h
  rcases hinv : get_closest_inventory snap lastDate.1 lastDate.2.1 lastDate.2.2
    with _ | inventory <;> rw [hinv] at h
  · exact absurd h (by simp)
  rw [Option.some_bind] at h
  rcases hup : inventory.profits tickers with _ | up <;> rw [hup] at h
  · exact absurd h (by simp)
  rw [Option.some_bind] at h
  rcases huc : inventory.costs tickers with _ | uc <;> rw [huc] at h
  · exact absurd h (by simp)
  rw [Option.some_bind] at h
  obtain rfl : r = _ := (Option.some_inj.mp h).symm
  refine ⟨rfl, rfl, rfl, ?_, ?_, rfl, rfl⟩
  · intro hle
    exact if_neg (not_lt.mpr hle)
  · intro hzero
    have h0 : (th.sum_profits_costs dates tickers).2 + uc = 0 := hzero
    have hneg : ¬ ((th.sum_profits_costs dates tickers).2 + uc > EPS) := by
      rw [h0, EPS]
      norm_num
    exact if_neg hneg

/-- C6 witness: over the empty ledger and a snapshot store holding one
zero inventory for 2020-01-02, `get_profits_cost` succeeds with all
costs `0` and all percentages `0`. -/
theorem get_profits_cost_witness :
    get_profits_cost TradeHistory.empty snapStoreOne [(2020, 1, 2)] ["A"] =
      some ⟨0, 0, 0, 0, 0, 0, 0, 0, 0⟩ ∧
    (0 : ℚ) = (if (0 : ℚ) > EPS then (0 : ℚ) / 0 * 100 else 0) := by
  have h1 : get_profits_cost TradeHistory.empty snapStoreOne [(2020, 1, 2)] ["A"] =
      some ⟨0, 0, 0, 0, 0, 0, 0, 0, 0⟩ := by
    have e1 : [((2020 : ℤ), (1 : ℤ), (2 : ℤ))].getLast? = some (2020, 1, 2) := rfl
    have e2 : get_closest_inventory snapStoreOne 2020 1 2 = some ⟨[("A", Asset.init)]⟩ := by
      decide
    have emap : (["A"].mapM
        (fun tk => List.lookup tk (⟨[("A", Asset.init)]⟩ : Inventory).assets)) =
        some [Asset.init] := by decide
    have e3 : (Inventory.profits ⟨[("A", Asset.init)]⟩ ["A"]) = some 0 := by
      rw [Inventory.profits, emap]
      norm_num [Asset.profit, Asset.init]
    have e4 : (Inventory.costs ⟨[("A", Asset.init)]⟩ ["A"]) = some 0 := by
      rw [Inventory.costs, emap]
      norm_num [Asset.init]
    have e5 : TradeHistory.empty.sum_profits_costs [(2020, 1, 2)] ["A"] = ((0 : ℚ), (0 : ℚ)) := by
      simp [TradeHistory.sum_profits_costs, sellStep, TradeHistory.get_sell,
        TradeHistory.empty, lookup3]
    simp only [get_profits_cost, e1, Option.some_bind, e2, e3, e4, e5]
    norm_num [EPS]
  have h2 := (get_profits_cost_pct_spec TradeHistory.empty snapStoreOne [(2020, 1, 2)] ["A"]
    ⟨0, 0, 0, 0, 0, 0, 0, 0, 0⟩ h1).2.2.1
  exact ⟨h1, h2⟩

theorem lookup3_updSnap {α : Type} (s : DateIndexed α) (y m d : ℤ) (v : α) :
    lookup3 (updNested y (updNested m (setdefaultA d v) []) [] s) y m d =
      some ((lookup3 s y m d).getD v) := by
  rw [lookup3, lookup_updNested_self, Option.some_bind]
  rcases hy : List.lookup y s with _ | months
  · simp only [Option.getD_none]
    rw [lookup_updNested_self, Option.some_bind]
    simp only [List.lookup, Option.getD_none]
    simp [lookup3, hy]
  · simp only [Option.getD_some]
    rw [lookup_updNested_self, Option.some_bind]
    rcases hm : List.lookup m months with _ | days
    · simp only [Option.getD_none]
      rw [lookup_setdefaultA_self]
      simp [lookup3, hy, hm]
    · simp only [Option.getD_some]
      rw [lookup_setdefaultA_self]
      simp [lookup3, hy, hm]

theorem lookup3_addrIn (s : DateIndexed ℕ) (y m d : ℤ) (a : ℕ)
    (h : lookup3 s y m d = some a) : addrIn s a = true := by
  rw [lookup3] at h
  rcases hy : List.lookup y s with _ | months <;> rw [hy] at h
  · exact absurd h (by simp)
  rw [Option.some_bind] at h
  rcases hm : List.lookup m months with _ | days <;> rw [hm] at h
  · exact absurd h (by simp)
  rw [Option.some_bind] at h
  rw [addrIn, List.any_eq_true]
  refine ⟨(y, months), lookup_mem hy, ?_⟩
  rw [List.any_eq_true]
  refine ⟨(m, days), lookup_mem hm, ?_⟩
  rw [List.any_eq_true]
  exact ⟨(d, a), lookup_mem h, by simp⟩

/-- C7: `take_snapshot` stores a deep, independent copy of the live
inventory — when the date is fresh the stored snapshot is the current
value of the live inventory, and mutating the live inventory afterwards
does not change any stored snapshot — and re-committing the same date
leaves the stored snapshot unchanged (first-commit-wins, never an
overwrite). `hwf` states that all addresses already stored are live
heap cells distinct from the live inventory's address, which holds in
the engine since every stored address was created by `deepcopy`. -/
theorem take_snapshot_deepcopy_idem (st : InventorySnapshot) (live live2 : ℕ) (y m d : ℤ)
    (f : Inventory → Inventory) (hlive : live < st.heap.length)
    (hwf : ∀ a, addrIn st.snapshot a = true → a < st.heap.length ∧ a ≠ live) :
    (lookup3 st.snapshot y m d = none →
      snapGet (take_snapshot y m d live st) y m d = some (st.heap.getD live default)) ∧
    snapGet (mutateLive live f (take_snapshot y m d live st)) y m d =
      snapGet (take_snapshot y m d live st) y m d ∧
    snapGet (take_snapshot y m d live2 (take_snapshot y m d live st)) y m d =
      snapGet (take_snapshot y m d live st) y m d := by
  have hlk : lookup3 (take_snapshot y m d live st).snapshot y m d =
      some ((lookup3 st.snapshot y m d).getD st.heap.length) := by
    rw [take_snapshot]
    exact lookup3_updSnap st.snapshot y m d st.heap.length
  have haddr : (lookup3 st.snapshot y m d).getD st.heap.length < st.heap.length + 1 ∧
      (lookup3 st.snapshot y m d).getD st.heap.length ≠ live := by
    rcases hcase : lookup3 st.snapshot y m d with _ | a
    · constructor
      · simp
      · simp only [Option.getD]
        omega
    · have := hwf a (lookup3_addrIn st.snapshot y m d a hcase)
      constructor
      · simp only [Option.getD]
        omega
      · simp only [Option.getD]
        exact this.2
  refine ⟨?_, ?_, ?_⟩
  · intro hfresh
    rw [snapGet, hlk, hfresh]
    simp only [Option.getD, Option.some_bind]
    rw [take_snapshot]
    exact List.getElem?_concat_length st.heap (st.heap.getD live default)
  · rw [snapGet, snapGet]
    rw [show (mutateLive live f (take_snapshot y m d live st)).snapshot =
        (take_snapshot y m d live st).snapshot from rfl]
    rw [hlk, Option.some_bind, Option.some_bind]
    rw [show (mutateLive live f (take_snapshot y m d live st)).heap =
        (take_snapshot y m d live st).heap.set live
          (f ((take_snapshot y m d live st).heap.getD live default)) from rfl]
    exact List.getElem?_set_ne haddr.2.symm
  · rw [snapGet, snapGet]
    have hlk2 : lookup3 (take_snapshot y m d live2 (take_snapshot y m d live st)).snapshot
        y m d = some ((lookup3 st.snapshot y m d).getD st.heap.length) := by
      rw [take_snapshot]
      rw [lookup3_updSnap]
      rw [hlk]
      simp
    rw [hlk2, hlk, Option.some_bind, Option.some_bind]
    rw [show (take_snapshot y m d live2 (take_snapshot y m d live st)).heap =
        (take_snapshot y m d live st).heap ++
          [(take_snapshot y m d live st).heap.getD live2 default] from rfl]
    rw [List.getElem?_append_left]
    rw [show (take_snapshot y m d live st).heap =
        st.heap ++ [st.heap.getD live default] from rfl]
    rw [List.length_append]
    simp only [List.length_cons, List.length_nil]
    omega

/-- C7 witness: committing 2020-01-02 into an empty store stores the
current live inventory; zeroing the live inventory afterwards leaves
the stored snapshot unchanged, and re-committing the same date is a
no-op on the stored snapshot. -/
theorem take_snapshot_witness :
    snapGet (take_snapshot 2020 1 2 0 snapStoreEx) 2020 1 2 = some ⟨[("A", Asset.init)]⟩ ∧
    snapGet (mutateLive 0 (fun _ => ⟨[]⟩) (take_snapshot 2020 1 2 0 snapStoreEx)) 2020 1 2 =
      snapGet (take_snapshot 2020 1 2 0 snapStoreEx) 2020 1 2 ∧
    snapGet (take_snapshot 2020 1 2 0 (take_snapshot 2020 1 2 0 snapStoreEx)) 2020 1 2 =
      snapGet (take_snapshot 2020 1 2 0 snapStoreEx) 2020 1 2 := by
  have h := take_snapshot_deepcopy_idem snapStoreEx 0 0 2020 1 2 (fun _ => ⟨[]⟩)
    (by decide)
    (by
      intro a ha
      simp [snapStoreEx, addrIn] at ha)
  have hfresh : lookup3 snapStoreEx.snapshot 2020 1 2 = none := by decide
  have h1 := h.1 hfresh
  exact ⟨by rw [h1]; decide, h.2.1, h.2.2⟩

theorem lookup3_updTriple {α : Type} (s : DateIndexed α) (y m d : ℤ) (g : α → α) (dflt : α) :
    lookup3 (updNested y (updNested m (updNested d g dflt) []) [] s) y m d =
      some (g ((lookup3 s y m d).getD dflt)) := by
  rw [lookup3, lookup_updNested_self, Option.some_bind]
  rcases hy : List.lookup y s with _ | months
  · simp only [Option.getD_none]
    rw [lookup_updNested_self, Option.some_bind]
    simp only [List.lookup, Option.getD_none]
    simp [lookup3, hy]
  · simp only [Option.getD_some]
    rw [lookup_updNested_self, Option.some_bind]
    rcases hm : List.lookup m months with _ | days
    · simp only [Option.getD_none]
      simp only [List.lookup, Option.getD_none]
      simp [lookup3, hy, hm]
    · simp only [Option.getD_some]
      rw [lookup_updNested_self]
      simp [lookup3, hy, hm]

theorem lookup3_updTriple_ne {α : Type} (s : DateIndexed α) (y m d y' m' d' : ℤ)
    (g : α → α) (dflt : α) (hne : ¬ (y = y' ∧ m = m' ∧ d = d')) :
    lookup3 (updNested y (updNested m (updNested d g dflt) []) [] s) y' m' d' =
      lookup3 s y' m' d' := by
  by_cases hy : y = y'
  · subst hy
    by_cases hm : m = m'
    · subst hm
      have hd : d' ≠ d := fun h => hne ⟨rfl, rfl, h.symm⟩
      rw [lookup3, lookup3, lookup_updNested_self, Option.some_bind]
      rcases hys : List.lookup y s with _ | months
      · simp only [Option.getD_none]
        rw [lookup_updNested_self, Option.some_bind]
        simp only [List.lookup, Option.getD_none]
        simp [beq_false_of_ne hd]
      · simp only [Option.getD_some]
        rw [lookup_updNested_self, Option.some_bind]
        rcases hms : List.lookup m months with _ | days
        · simp only [Option.getD_none]
          rw [lookup_updNested_ne hd]
          simp [hms, List.lookup]
        · simp only [Option.getD_some]
          rw [lookup_updNested_ne hd]
          simp [hms]
    · have hm' : m' ≠ m := fun h => hm h.symm
      rw [lookup3, lookup3, lookup_updNested_self, Option.some_bind]
      rcases hys : List.lookup y s with _ | months
      · simp only [Option.getD_none]
        rw [lookup_updNested_ne hm']
        simp [List.lookup]
      · simp only [Option.getD_some]
        rw [lookup_updNested_ne hm']
        simp [hys]
  · rw [lookup3, lookup3, lookup_updNested_ne (fun h => hy h.symm)]

theorem get_buy_add_buy (th : TradeHistory) (yi mi di : ℤ) (b : Buy) (yq mq dq : ℤ)
    (tk : String) :
    (th.add_buy yi mi di b).get_buy yq mq dq tk =
      if yi = yq ∧ mi = mq ∧ di = dq ∧ b.ticker = tk then
        some ((th.get_buy yq mq dq tk).getD b)
      else th.get_buy yq mq dq tk := by
  by_cases hc : yi = yq ∧ mi = mq ∧ di = dq
  · obtain ⟨rfl, rfl, rfl⟩ := hc
    rw [TradeHistory.get_buy]
    rw [show (th.add_buy yi mi di b).buyHistory = updNested yi
        (updNested mi (updNested di (setdefaultA b.ticker b) []) []) [] th.buyHistory from rfl]
    rw [lookup3_updTriple, Option.some_bind]
    by_cases htk : b.ticker = tk
    · subst htk
      rw [lookup_setdefaultA_self, if_pos ⟨rfl, rfl, rfl, rfl⟩, TradeHistory.get_buy]
      rcases h3 : lookup3 th.buyHistory yi mi di with _ | days
      · simp [List.lookup]
      · simp
    · rw [lookup_setdefaultA_ne (fun h => htk h.symm)]
      rw [if_neg (fun h => htk h.2.2.2), TradeHistory.get_buy]
      rcases h3 : lookup3 th.buyHistory yi mi di with _ | days
      · simp [List.lookup]
      · simp
  · rw [TradeHistory.get_buy]
    rw [show (th.add_buy yi mi di b).buyHistory = updNested yi
        (updNested mi (updNested di (setdefaultA b.ticker b) []) []) [] th.buyHistory from rfl]
    rw [lookup3_updTriple_ne _ _ _ _ _ _ _ _ _ hc]
    rw [if_neg (fun h => hc ⟨h.1, h.2.1, h.2.2.1⟩)]
    rfl

theorem get_sell_add_sell (th : TradeHistory) (yi mi di : ℤ) (sl : Sell) (yq mq dq : ℤ)
    (tk : String) :
    (th.add_sell yi mi di sl).get_sell yq mq dq tk =
      if yi = yq ∧ mi = mq ∧ di = dq ∧ sl.ticker = tk then
        some ((th.get_sell yq mq dq tk).getD sl)
      else th.get_sell yq mq dq tk := by
  by_cases hc : yi = yq ∧ mi = mq ∧ di = dq
  · obtain ⟨rfl, rfl, rfl⟩ := hc
    rw [TradeHistory.get_sell]
    rw [show (th.add_sell yi mi di sl).sellHistory = updNested yi
        (updNested mi (updNested di (setdefaultA sl.ticker sl) []) []) [] th.sellHistory
        from rfl]
    rw [lookup3_updTriple, Option.some_bind]
    by_cases htk : sl.ticker = tk
    · subst htk
      rw [lookup_setdefaultA_self, if_pos ⟨rfl, rfl, rfl, rfl⟩, TradeHistory.get_sell]
      rcases h3 : lookup3 th.sellHistory yi mi di with _ | days
      · simp [List.lookup]
      · simp
    · rw [lookup_setdefaultA_ne (fun h => htk h.symm)]
      rw [if_neg (fun h => htk h.2.2.2), TradeHistory.get_sell]
      rcases h3 : lookup3 th.sellHistory yi mi di with _ | days
      · simp [List.lookup]
      · simp
  · rw [TradeHistory.get_sell]
    rw [show (th.add_sell yi mi di sl).sellHistory = updNested yi
        (updNested mi (updNested di (setdefaultA sl.ticker sl) []) []) [] th.sellHistory
        from rfl]
    rw [lookup3_updTriple_ne _ _ _ _ _ _ _ _ _ hc]
    rw [if_neg (fun h => hc ⟨h.1, h.2.1, h.2.2.1⟩)]
    rfl

theorem get_buy_applyOps (y m d : ℤ) (tk : String) :
    ∀ (ops : List TOp) (th : TradeHistory),
      (applyOps ops th).get_buy y m d tk =
        match th.get_buy y m d tk with
        | some b => some b
        | none => specFirstBuy y m d tk ops := by
  intro ops
  induction ops with
  | nil =>
    intro th
    rw [applyOps, specFirstBuy]
    rcases th.get_buy y m d tk with _ | b <;> rfl
  | cons op rest ih =>
    intro th
    cases op with
    | buy y' m' d' b =>
      rw [applyOps, ih, get_buy_add_buy, specFirstBuy]
      by_cases hc : y' = y ∧ m' = m ∧ d' = d ∧ b.ticker = tk
      · rw [if_pos hc, if_pos hc]
        rcases th.get_buy y m d tk with _ | c <;> rfl
      · rw [if_neg hc, if_neg hc]
    | sell y' m' d' sl =>
      rw [applyOps, ih, specFirstBuy]
      rw [show (th.add_sell y' m' d' sl).get_buy y m d tk = th.get_buy y m d tk from rfl]

theorem get_sell_applyOps (y m d : ℤ) (tk : String) :
    ∀ (ops : List TOp) (th : TradeHistory),
      (applyOps ops th).get_sell y m d tk =
        match th.get_sell y m d tk with
        | some sl => some sl
        | none => specFirstSell y m d tk ops := by
  intro ops
  induction ops with
  | nil =>
    intro th
    rw [applyOps, specFirstSell]
    rcases th.get_sell y m d tk with _ | sl <;> rfl
  | cons op rest ih =>
    intro th
    cases op with
    | sell y' m' d' sl =>
      rw [applyOps, ih, get_sell_add_sell, specFirstSell]
      by_cases hc : y' = y ∧ m' = m ∧ d' = d ∧ sl.ticker = tk
      · rw [if_pos hc, if_pos hc]
        rcases th.get_sell y m d tk with _ | c <;> rfl
      · rw [if_neg hc, if_neg hc]
    | buy y' m' d' b =>
      rw [applyOps, ih, specFirstSell]
      rw [show (th.add_buy y' m' d' b).get_sell y m d tk = th.get_sell y m d tk from rfl]

/-- C8: for every sequence of `add_buy` / `add_sell` calls starting
from the empty ledger, the event stored under a (year, month, day,
ticker) key is exactly the FIRST event inserted for that key — later
inserts for an occupied key are silently ignored, so each key holds at
most one Buy and at most one Sell, always the first inserted. -/
theorem trade_history_first_insert_wins (ops : List TOp) (y m d : ℤ) (tk : String) :
    (applyOps ops TradeHistory.empty).get_buy y m d tk = specFirstBuy y m d tk ops ∧
    (applyOps ops TradeHistory.empty).get_sell y m d tk = specFirstSell y m d tk ops := by
  constructor
  · rw [get_buy_applyOps]
    rw [show TradeHistory.empty.get_buy y m d tk = none from rfl]
  · rw [get_sell_applyOps]
    rw [show TradeHistory.empty.get_sell y m d tk = none from rfl]

/-- C2: evaluation of `get_closest_available_date` at the failing
input. Target 2021-03-05 over an index holding 2021-01-10, 2021-02-10
and 2021-02-20: the lookup succeeds and returns 2021-01-10, although
2021-02-20 is indexed, is no later than the target, and is strictly
later than the returned date — so the returned date is NOT the latest
indexed date at or before the target, contradicting the function's own
docstring. (The day filter keeps only days `≤ 5` although the selected
month, February, is already strictly earlier than the target month, and
the fallback then skips to January.) -/
theorem get_closest_available_date_bug :
    getClosestAvailableDate 2021 3 5 idxGcad = some (2021, 1, 10) ∧
    indexedDate idxGcad 2021 2 20 = true ∧
    dateLe (2021, 2, 20) (2021, 3, 5) ∧
    ¬ dateLe (2021, 2, 20) (2021, 1, 10) := by
  refine ⟨by decide, by decide, by decide, by decide⟩
